import Mathlib

/- A shallow embedding of `qdrant_client/local/local_collection.py`: the
   in-process vector collection (`LocalCollection`), its query paths
   (search, recommend, scroll, retrieve) and its write paths (upsert,
   delete).  Vector components are modelled as rationals.  The external
   collaborators of the engine (the payload-filter evaluator
   `calculate_payload_mask`, the distance kernel `calculate_distance`,
   the metric-direction map `distance_to_order` and the stdlib UUID
   parser) are parameters, bundled in `Externals`.  The in-memory mode
   (`location = None`) is modelled, so all persistence branches are
   no-ops.  Python exceptions are modelled with `Except` / an error
   component; operations that mutate state before raising return the
   partially mutated state together with the error, exactly as the
   Python object retains those mutations. -/

namespace Qd

/-- External point id: an unsigned integer or a string
    (`models.ExtendedPointId`). -/
inductive ExtId where
  | intId : Nat → ExtId
  | strId : String → ExtId
deriving DecidableEq, Repr

/-- A JSON-like payload value (enough structure for the claims). -/
inductive PVal where
  | pint : Int → PVal
  | pstr : String → PVal
deriving DecidableEq, Repr

/-- A payload: a string-keyed mapping, modelled as an association list in
    Python-dict insertion order. -/
abbrev Payload := List (String × PVal)

/-- Distance metric recognised by the collection config. -/
inductive Distance where
  | Cosine | Dot | Euclid
deriving DecidableEq, Repr

/-- Sort direction for a metric (`DistanceOrder` in
    `qdrant_client.local.distances`). -/
inductive DistanceOrder where
  | biggerIsBetter | smallerIsBetter
deriving DecidableEq, Repr

/-- `models.VectorParams`: dimensionality and metric of one named vector. -/
structure VectorParams where
  size : Nat
  distance : Distance
deriving DecidableEq, Repr

/-- `config.vectors`: either a single anonymous `VectorParams` or a
    name-to-params mapping. -/
inductive VectorsConfig where
  | single : VectorParams → VectorsConfig
  | named : List (String × VectorParams) → VectorsConfig
deriving DecidableEq, Repr

/-- `models.CreateCollection` (the part the engine reads). -/
structure CreateCollection where
  vectors : VectorsConfig
deriving DecidableEq, Repr

/-- One per-name vector matrix: `np.ndarray` of shape
    `(rows.length, dim)`; `dim` is `shape[1]`, kept even when there are
    no rows (`np.zeros((0, size))`). -/
structure Matrix where
  dim : Nat
  rows : List (List ℚ)
deriving DecidableEq, Repr

/-- The collection state: the fields of `LocalCollection`.  Python dicts
    are association lists in insertion order. -/
structure Collection where
  vectors : List (String × Matrix)
  payload : List (Option Payload)
  deleted : List Bool
  ids : List (ExtId × Nat)
  ids_inv : List ExtId
  config : CreateCollection
deriving DecidableEq, Repr

/-- Python exception kinds raised by the modelled code. -/
inductive PyErr where
  | valueError | keyError | indexError | typeError | assertionError
deriving DecidableEq, Repr

/-- A filter condition: the engine itself only constructs
    `HasIdCondition`; every other condition kind is opaque to it. -/
inductive Condition where
  | hasId : List ExtId → Condition
  | opaqueCond : Nat → Condition
deriving DecidableEq, Repr

/-- `models.Filter` (the fields the engine reads or writes). -/
structure Filter where
  should : Option (List Condition)
  must : Option (List Condition)
  must_not : Option (List Condition)
deriving DecidableEq, Repr

/-- `point.vector`: a bare array (default name) or a name-to-array map. -/
inductive VectorStructIn where
  | plain : List ℚ → VectorStructIn
  | named : List (String × List ℚ) → VectorStructIn
deriving DecidableEq, Repr

/-- `models.PointStruct`. -/
structure PointStruct where
  id : ExtId
  payload : Option Payload
  vector : VectorStructIn
deriving DecidableEq, Repr

/-- The shapes accepted for `query_vector` (tuple, `NamedVector`,
    ndarray/list). -/
inductive QueryVector where
  | pair : String × List ℚ → QueryVector
  | namedVec : String → List ℚ → QueryVector
  | raw : List ℚ → QueryVector
deriving DecidableEq, Repr

/-- `with_payload` selector: bool, key list, include- or
    exclude-selector. -/
inductive WithPayload where
  | boolSel : Bool → WithPayload
  | listSel : List String → WithPayload
  | includeSel : List String → WithPayload
  | excludeSel : List String → WithPayload
deriving DecidableEq, Repr

/-- `with_vectors` selector: bool or name list. -/
inductive WithVectors where
  | boolSel : Bool → WithVectors
  | listSel : List String → WithVectors
deriving DecidableEq, Repr

/-- The value of a result record's `vector` field: a bare array (the
    default-only unwrap) or a name-to-array map. -/
inductive VectorOut where
  | single : List ℚ → VectorOut
  | named : List (String × List ℚ) → VectorOut
deriving DecidableEq, Repr

/-- `models.Record` as produced by retrieve/scroll. -/
structure Record where
  id : ExtId
  payload : Option Payload
  vector : Option VectorOut
deriving DecidableEq, Repr

/-- `models.ScoredPoint` as produced by search. -/
structure ScoredPoint where
  id : ExtId
  score : ℚ
  version : Nat
  payload : Option Payload
  vector : Option VectorOut
deriving DecidableEq, Repr

/-- The engine's external collaborators, out of scope of the spec's core:
    the payload-filter evaluator, the distance kernel, the
    metric-direction map, and the stdlib UUID-string validator. -/
structure Externals where
  payloadMask : Option Filter → List (Option Payload) → List ExtId → List Bool
  dist : List ℚ → List (List ℚ) → Distance → List ℚ
  distOrder : Distance → DistanceOrder
  validUUID : String → Bool

/-- Association-list lookup (Python dict read). -/
def alookup {α β : Type} [DecidableEq α] (k : α) : List (α × β) → Option β
  | [] => none
  | (a, b) :: t => if a = k then some b else alookup k t

/-- Association-list write (Python dict assignment: overwrite in place if
    the key exists, else append). -/
def aset {α β : Type} [DecidableEq α] (k : α) (v : β) : List (α × β) → List (α × β)
  | [] => [(k, v)]
  | (a, b) :: t => if a = k then (a, v) :: t else (a, b) :: aset k v t

/-- Keep the first occurrence of each element (the key order of a Python
    dict built from a possibly-repeating sequence). -/
def dedupFirst {α : Type} [DecidableEq α] : List α → List α
  | [] => []
  | a :: t => a :: (dedupFirst t).filter (fun x => x ≠ a)

/-- Run a fallible builder over a list, stopping at the first error. -/
def mapExcept {α β : Type} (f : α → Except PyErr β) : List α → Except PyErr (List β)
  | [] => .ok []
  | a :: t =>
    match f a with
    | .error e => .error e
    | .ok b =>
      match mapExcept f t with
      | .error e => .error e
      | .ok bs => .ok (b :: bs)

/-- Python `dict.keys() == dict.keys()`: equality of key sets. -/
def sameNameSet (a b : List String) : Bool :=
  a.all (fun n => decide (n ∈ b)) && b.all (fun n => decide (n ∈ a))

/-- `LocalCollection._universal_id`: the ordering key of an external id. -/
def universal_id : ExtId → String × Nat
  | .strId s => (s, 0)
  | .intId n => ("", n)

/-- Python tuple `<` on `(str, int)` keys. -/
abbrev ukLt (a b : String × Nat) : Prop :=
  a.1 < b.1 ∨ (a.1 = b.1 ∧ a.2 < b.2)

/-- Python tuple `≤` on `(str, int)` keys (the sort order of `sorted`). -/
abbrev ukLe (a b : String × Nat) : Prop :=
  a.1 < b.1 ∨ (a.1 = b.1 ∧ a.2 ≤ b.2)

/-- `np.argsort(scores)`: the stable ascending permutation of
    `[0, scores.length)` by score. -/
def argsortAsc (scores : List ℚ) : List Nat :=
  List.insertionSort (fun i j => scores.getD i 0 ≤ scores.getD j 0) (List.range scores.length)

/-- The early-break test of the search walk: for bigger-is-better
    metrics a score below the threshold breaks, otherwise a score above
    it does. -/
def thresholdCrossed (bigger : Bool) (thr : Option ℚ) (score : ℚ) : Bool :=
  match thr with
  | none => false
  | some t => if bigger then decide (score < t) else decide (t < score)

/-- `np.mean(vs, axis=0)` for a non-empty stack of equal-length rows. -/
def vecMean (vs : List (List ℚ)) : List ℚ :=
  match vs with
  | [] => []
  | v :: _ =>
    (vs.foldl (fun acc w => List.zipWith (· + ·) acc w) (List.replicate v.length 0)).map
      (fun x => x / (vs.length : ℚ))

/-- Python truthiness of a `with_payload` argument (`False` and `[]` are
    falsy; selector objects are truthy). -/
def wpFalsy : WithPayload → Bool
  | .boolSel b => !b
  | .listSel keys => keys.isEmpty
  | .includeSel _ => false
  | .excludeSel _ => false

/-- Python truthiness of a `with_vectors` argument. -/
def wvFalsy : WithVectors → Bool
  | .boolSel b => !b
  | .listSel names => names.isEmpty

/-- `{key: payload.get(key) for key in keys if key in payload}`. -/
def projectKeys (pl : Payload) (keys : List String) : Payload :=
  (dedupFirst keys).filterMap (fun k => (alookup k pl).map (fun v => (k, v)))

/-- `{key: payload.get(key) for key in payload if key not in keys}`. -/
def excludeKeys (pl : Payload) (keys : List String) : Payload :=
  pl.filter (fun kv => !(decide (kv.1 ∈ keys)))

/-- The projection part of `LocalCollection._get_payload`, applied to the
    stored (possibly `None`) payload.  Iterating or indexing a `None`
    payload raises `TypeError`, as in Python; an empty comprehension
    never touches it. -/
def getPayloadProj (p : Option Payload) (wp : WithPayload) : Except PyErr (Option Payload) :=
  if wpFalsy wp then .ok none
  else
    match wp with
    | .boolSel _ => .ok p
    | .listSel keys =>
      match p with
      | some pl => .ok (some (projectKeys pl keys))
      | none => if keys.isEmpty then .ok (some []) else .error .typeError
    | .includeSel keys =>
      match p with
      | some pl => .ok (some (projectKeys pl keys))
      | none => if keys.isEmpty then .ok (some []) else .error .typeError
    | .excludeSel keys =>
      match p with
      | some pl => .ok (some (excludeKeys pl keys))
      | none => .error .typeError

/-- `LocalCollection._get_payload`: `self.payload[idx]` is read first
    (IndexError if out of range), then the projection is applied. -/
def getPayloadAt (c : Collection) (idx : Nat) (wp : WithPayload) : Except PyErr (Option Payload) :=
  match c.payload[idx]? with
  | none => .error .indexError
  | some p => getPayloadProj p wp

/-- `{name: self.vectors[name][idx].tolist() for name in self.vectors}`. -/
def rowsAt (vecs : List (String × Matrix)) (idx : Nat) : Except PyErr (List (String × List ℚ)) :=
  match vecs with
  | [] => .ok []
  | (n, M) :: rest =>
    match M.rows[idx]? with
    | none => .error .indexError
    | some r =>
      match rowsAt rest idx with
      | .error e => .error e
      | .ok t => .ok ((n, r) :: t)

/-- `{name: vectors[name] for name in with_vectors}` (KeyError on a name
    that is not present). -/
def restrictNames (all : List (String × List ℚ)) : List String → Except PyErr (List (String × List ℚ))
  | [] => .ok []
  | n :: rest =>
    match alookup n all with
    | none => .error .keyError
    | some r =>
      match restrictNames all rest with
      | .error e => .error e
      | .ok t => .ok ((n, r) :: t)

/-- `LocalCollection._get_vectors`. -/
def getVectors (c : Collection) (idx : Nat) (wv : WithVectors) : Except PyErr (Option VectorOut) :=
  if wvFalsy wv then .ok none
  else
    match rowsAt c.vectors idx with
    | .error e => .error e
    | .ok allRows =>
      match
        (match wv with
         | .listSel names => restrictNames allRows (dedupFirst names)
         | _ => .ok allRows) with
      | .error e => .error e
      | .ok vectors =>
        if vectors.length = 1 && (alookup "" vectors).isSome then
          .ok (some (.single ((alookup "" vectors).getD [])))
        else .ok (some (.named vectors))

/-- `LocalCollection._resolve_vector_name`. -/
def resolveVectorName : QueryVector → String × List ℚ
  | .pair nv => nv
  | .namedVec n v => (n, v)
  | .raw v => ("", v)

/-- `LocalCollection.get_vector_params`. -/
def get_vector_params (c : Collection) (name : String) : Except PyErr VectorParams :=
  match c.config.vectors with
  | .named m =>
    match alookup name m with
    | some p => .ok p
    | none => .error .valueError
  | .single p => if name = "" then .ok p else .error .valueError

/-- Build one `ScoredPoint` for internal index `idx` (the id lookup, the
    payload projection and the vector projection, in source order). -/
def mkScoredPoint (c : Collection) (wp : WithPayload) (wv : WithVectors) (scores : List ℚ)
    (idx : Nat) : Except PyErr ScoredPoint :=
  match c.ids_inv[idx]? with
  | none => .error .indexError
  | some pid =>
    match getPayloadAt c idx wp with
    | .error e => .error e
    | .ok pl =>
      match getVectors c idx wv with
      | .error e => .error e
      | .ok vo => .ok ⟨pid, scores.getD idx 0, 0, pl, vo⟩

/-- The `for idx in order` loop of `LocalCollection.search`: break once
    `limit + offset` results are accumulated, skip masked-out indices,
    break once the score threshold is crossed, otherwise append. -/
def searchWalk (c : Collection) (scores : List ℚ) (mask : List Bool) (wp : WithPayload)
    (wv : WithVectors) (thr : Option ℚ) (bigger : Bool) (lim : Nat) :
    List Nat → List ScoredPoint → Except PyErr (List ScoredPoint)
  | [], acc => .ok acc
  | idx :: rest, acc =>
    if lim ≤ acc.length then .ok acc
    else if !(mask.getD idx false) then searchWalk c scores mask wp wv thr bigger lim rest acc
    else
      match c.ids_inv[idx]? with
      | none => .error .indexError
      | some pid =>
        if thresholdCrossed bigger thr (scores.getD idx 0) then .ok acc
        else
          match getPayloadAt c idx wp with
          | .error e => .error e
          | .ok pl =>
            match getVectors c idx wv with
            | .error e => .error e
            | .ok vo =>
              searchWalk c scores mask wp wv thr bigger lim rest
                (acc ++ [⟨pid, scores.getD idx 0, 0, pl, vo⟩])

/-- `LocalCollection.search`. -/
def search (E : Externals) (c : Collection) (qv : QueryVector) (filt : Option Filter)
    (limit offset : Nat) (wp : WithPayload) (wv : WithVectors) (thr : Option ℚ) :
    Except PyErr (List ScoredPoint) :=
  let pm := E.payloadMask filt c.payload c.ids_inv
  let nv := resolveVectorName qv
  match alookup nv.1 c.vectors with
  | none => .error .valueError
  | some M =>
    match get_vector_params c nv.1 with
    | .error e => .error e
    | .ok params =>
      let scores := E.dist nv.2 (M.rows.take c.payload.length) params.distance
      let mask := List.zipWith (fun p d => p && !d) pm c.deleted
      let bigger := E.distOrder params.distance = DistanceOrder.biggerIsBetter
      let order := if bigger then (argsortAsc scores).reverse else argsortAsc scores
      match searchWalk c scores mask wp wv thr bigger (limit + offset) order [] with
      | .error e => .error e
      | .ok res => .ok (res.drop offset)

/-- Written from the spec's words (§4.E step 5): the indices the walk
    accumulates are the first `lim` of the masked candidates of `order`,
    cut at the first score that crosses the threshold. -/
def selectedIndices (mask : List Bool) (bigger : Bool) (thr : Option ℚ) (scores : List ℚ)
    (lim : Nat) (order : List Nat) : List Nat :=
  ((order.filter (fun i => mask.getD i false)).takeWhile
      (fun i => !thresholdCrossed bigger thr (scores.getD i 0))).take lim

/-- Written from the spec's words (§4.E search, steps 1-6): mask,
    scores, score-sorted order, selection pipeline, then
    `results[offset:]`. -/
def searchSpec (E : Externals) (c : Collection) (qv : QueryVector) (filt : Option Filter)
    (limit offset : Nat) (wp : WithPayload) (wv : WithVectors) (thr : Option ℚ) :
    Except PyErr (List ScoredPoint) :=
  let nv := resolveVectorName qv
  match alookup nv.1 c.vectors with
  | none => .error .valueError
  | some M =>
    match get_vector_params c nv.1 with
    | .error e => .error e
    | .ok params =>
      let scores := E.dist nv.2 (M.rows.take c.payload.length) params.distance
      let mask := List.zipWith (fun p d => p && !d) (E.payloadMask filt c.payload c.ids_inv) c.deleted
      let bigger := E.distOrder params.distance = DistanceOrder.biggerIsBetter
      let order := if bigger then (argsortAsc scores).reverse else argsortAsc scores
      match mapExcept (mkScoredPoint c wp wv scores)
          (selectedIndices mask bigger thr scores (limit + offset) order) with
      | .error e => .error e
      | .ok pts => .ok (pts.drop offset)

/-- The length of the score list the search call computes (0 when search
    fails before scoring). -/
def searchScoresLen (E : Externals) (c : Collection) (qv : QueryVector) : Nat :=
  let nv := resolveVectorName qv
  match alookup nv.1 c.vectors with
  | none => 0
  | some M =>
    match get_vector_params c nv.1 with
    | .error _ => 0
    | .ok params => (E.dist nv.2 (M.rows.take c.payload.length) params.distance).length

/-- The body of `LocalCollection.retrieve`: skip unknown ids, emit a
    record per known id in caller order. -/
def retrieveLoop (c : Collection) (wp : WithPayload) (wv : WithVectors) :
    List ExtId → Except PyErr (List Record)
  | [] => .ok []
  | pid :: rest =>
    match alookup pid c.ids with
    | none => retrieveLoop c wp wv rest
    | some idx =>
      match getPayloadAt c idx wp with
      | .error e => .error e
      | .ok pl =>
        match getVectors c idx wv with
        | .error e => .error e
        | .ok vo =>
          match retrieveLoop c wp wv rest with
          | .error e => .error e
          | .ok t => .ok (⟨pid, pl, vo⟩ :: t)

/-- `LocalCollection.retrieve`. -/
def retrieve (c : Collection) (ids : List ExtId) (wp : WithPayload) (wv : WithVectors) :
    Except PyErr (List Record) :=
  retrieveLoop c wp wv ids

/-- `sorted(self.ids.items(), key=lambda x: self._universal_id(x[0]))`:
    a stable ascending sort by universal key. -/
def sortIds (ids : List (ExtId × Nat)) : List (ExtId × Nat) :=
  List.insertionSort (fun x y => ukLe (universal_id x.1) (universal_id y.1)) ids

/-- The scroll offset skip: ids strictly below the offset id (by
    universal key) are passed over. -/
def offSkip (off : Option ExtId) (pid : ExtId) : Bool :=
  match off with
  | none => false
  | some o => decide (ukLt (universal_id pid) (universal_id o))

/-- Build one scroll/retrieve `Record` for `(pid, idx)`. -/
def mkRecord (c : Collection) (wp : WithPayload) (wv : WithVectors) (pi : ExtId × Nat) :
    Except PyErr Record :=
  match getPayloadAt c pi.2 wp with
  | .error e => .error e
  | .ok pl =>
    match getVectors c pi.2 wv with
    | .error e => .error e
    | .ok vo => .ok ⟨pi.1, pl, vo⟩

/-- The `for point_id, idx in sorted_ids` loop of
    `LocalCollection.scroll`: skip ids below the offset, break once
    `limit + 1` records are collected, skip masked-out indices,
    otherwise append. -/
def scrollWalk (c : Collection) (mask : List Bool) (wp : WithPayload) (wv : WithVectors)
    (off : Option ExtId) (cap : Nat) :
    List (ExtId × Nat) → List Record → Except PyErr (List Record)
  | [], acc => .ok acc
  | pi :: rest, acc =>
    if offSkip off pi.1 then scrollWalk c mask wp wv off cap rest acc
    else if cap ≤ acc.length then .ok acc
    else if !(mask.getD pi.2 false) then scrollWalk c mask wp wv off cap rest acc
    else
      match mkRecord c wp wv pi with
      | .error e => .error e
      | .ok r => scrollWalk c mask wp wv off cap rest (acc ++ [r])

/-- `LocalCollection.scroll`. -/
def scroll (E : Externals) (c : Collection) (filt : Option Filter) (limit : Nat)
    (off : Option ExtId) (wp : WithPayload) (wv : WithVectors) :
    Except PyErr (List Record × Option ExtId) :=
  if c.ids.isEmpty then .ok ([], none)
  else
    let mask := List.zipWith (fun p d => p && !d) (E.payloadMask filt c.payload c.ids_inv) c.deleted
    match scrollWalk c mask wp wv off (limit + 1) (sortIds c.ids) [] with
    | .error e => .error e
    | .ok result =>
      if limit < result.length then
        .ok (result.take limit, some ((result.getD limit ⟨.intId 0, none, none⟩).id))
      else .ok (result, none)

/-- Written from the spec's words (§4.E scroll, steps 2-4): the records
    scroll collects are the first `cap` of the sorted ids at or past the
    offset that pass the mask. -/
def scrollCandidates (mask : List Bool) (off : Option ExtId) (cap : Nat)
    (sorted : List (ExtId × Nat)) : List (ExtId × Nat) :=
  ((sorted.filter (fun pi => !offSkip off pi.1)).filter
      (fun pi => mask.getD pi.2 false)).take cap

/-- Written from the spec's words (§4.E scroll, steps 1-5): sorted id
    list, offset filter, mask filter, collect up to `limit + 1`, then
    the page split with the next offset. -/
def scrollSpec (E : Externals) (c : Collection) (filt : Option Filter) (limit : Nat)
    (off : Option ExtId) (wp : WithPayload) (wv : WithVectors) :
    Except PyErr (List Record × Option ExtId) :=
  if c.ids.isEmpty then .ok ([], none)
  else
    let mask := List.zipWith (fun p d => p && !d) (E.payloadMask filt c.payload c.ids_inv) c.deleted
    match mapExcept (mkRecord c wp wv) (scrollCandidates mask off (limit + 1) (sortIds c.ids)) with
    | .error e => .error e
    | .ok result =>
      if limit < result.length then
        .ok (result.take limit, some ((result.getD limit ⟨.intId 0, none, none⟩).id))
      else .ok (result, none)

/-- The example-gathering loops of `LocalCollection.recommend`:
    `collection.vectors[vector_name][idx]` for each example id. -/
def gatherVectors (col : Collection) (vname : String) : List ExtId → Except PyErr (List (List ℚ))
  | [] => .ok []
  | pid :: rest =>
    match alookup pid col.ids with
    | none => .error .valueError
    | some idx =>
      match alookup vname col.vectors with
      | none => .error .keyError
      | some M =>
        match M.rows[idx]? with
        | none => .error .indexError
        | some r =>
          match gatherVectors col vname rest with
          | .error e => .error e
          | .ok t => .ok (r :: t)

/-- `LocalCollection.recommend`, with the post-call state of the
    caller's `query_filter` object made explicit as the first component:
    the source mutates the caller's filter in place (appending to its
    `must_not`), while in the `None` branch it binds a fresh `Filter` to
    the local name only. -/
def recommendImpl (E : Externals) (c : Collection) (positive negative : List ExtId)
    (query_filter : Option Filter) (limit offset : Nat) (wp : WithPayload) (wv : WithVectors)
    (thr : Option ℚ) (usingName : Option String) (lookupCol : Option Collection)
    (lookupVecName : Option String) :
    Option Filter × Except PyErr (List ScoredPoint) :=
  let collection := lookupCol.getD c
  let search_in_vector_name := usingName.getD ""
  let vector_name := lookupVecName.getD search_in_vector_name
  if positive.isEmpty then (query_filter, .error .valueError)
  else
    match gatherVectors collection vector_name positive with
    | .error e => (query_filter, .error e)
    | .ok positive_vectors =>
      match gatherVectors collection vector_name negative with
      | .error e => (query_filter, .error e)
      | .ok negative_vectors =>
        let mean_positive_vector := vecMean positive_vectors
        let vector :=
          if negative_vectors.isEmpty then mean_positive_vector
          else
            List.zipWith (· - ·)
              (List.zipWith (· + ·) mean_positive_vector mean_positive_vector)
              (vecMean negative_vectors)
        let ignore_mentioned_ids := Condition.hasId (positive ++ negative)
        let usedFilter : Filter :=
          match query_filter with
          | none => ⟨none, none, some [ignore_mentioned_ids]⟩
          | some f => { f with must_not := some (f.must_not.getD [] ++ [ignore_mentioned_ids]) }
        let callerAfter : Option Filter :=
          match query_filter with
          | none => none
          | some _ => some usedFilter
        (callerAfter,
         search E c (.pair (search_in_vector_name, vector)) (some usedFilter) limit offset
           wp wv thr)

/-- `LocalCollection.recommend` (the returned value). -/
def recommend (E : Externals) (c : Collection) (positive negative : List ExtId)
    (query_filter : Option Filter) (limit offset : Nat) (wp : WithPayload) (wv : WithVectors)
    (thr : Option ℚ) (usingName : Option String) (lookupCol : Option Collection)
    (lookupVecName : Option String) : Except PyErr (List ScoredPoint) :=
  (recommendImpl E c positive negative query_filter limit offset wp wv thr usingName lookupCol
    lookupVecName).2

/-- Written from the spec's words (§4.E recommend, step 4): the caller's
    filter augmented with a must-not-have-id clause. -/
def augmentedFilter (qf : Option Filter) (ids : List ExtId) : Filter :=
  match qf with
  | none => ⟨none, none, some [Condition.hasId ids]⟩
  | some f => { f with must_not := some (f.must_not.getD [] ++ [Condition.hasId ids]) }

/-- `point.vector` normalised to a name-to-array map (a bare list is the
    default name). -/
def normalizeVS : VectorStructIn → List (String × List ℚ)
  | .plain v => [("", v)]
  | .named m => m

/-- `np.ndarray` row assignment `M[idx] = v`: IndexError out of range,
    ValueError (shape mismatch) when the row length differs from
    `shape[1]`. -/
def setRow (M : Matrix) (idx : Nat) (v : List ℚ) : Except PyErr Matrix :=
  if idx < M.rows.length then
    if v.length = M.dim then .ok { M with rows := M.rows.set idx v }
    else .error .valueError
  else .error .indexError

/-- The `for vector_name, vector in vectors.items()` loop of
    `_update_point`: assign each row in place; an exception aborts the
    loop, keeping the rows already written. -/
def setRowsLoop (c : Collection) (vecs : List (String × List ℚ)) (idx : Nat) :
    Collection × Option PyErr :=
  match vecs with
  | [] => (c, none)
  | (name, v) :: rest =>
    match alookup name c.vectors with
    | none => (c, some .keyError)
    | some M =>
      match setRow M idx v with
      | .error e => (c, some e)
      | .ok M2 => setRowsLoop { c with vectors := aset name M2 c.vectors } rest idx

/-- `LocalCollection._update_point`: the payload is overwritten first,
    then the name-set assert runs, then each vector row is assigned, and
    only at the end is the tombstone cleared; a failure keeps all
    mutations made so far. -/
def updatePoint (c : Collection) (p : PointStruct) : Collection × Option PyErr :=
  match alookup p.id c.ids with
  | none => (c, some .keyError)
  | some idx =>
    if idx < c.payload.length then
      let c1 := { c with payload := c.payload.set idx p.payload }
      let vectors := normalizeVS p.vector
      if sameNameSet (vectors.map Prod.fst) (c1.vectors.map Prod.fst) then
        match setRowsLoop c1 vectors idx with
        | (c2, some e) => (c2, some e)
        | (c2, none) =>
          if idx < c2.deleted.length then
            ({ c2 with deleted := c2.deleted.set idx false }, none)
          else (c2, some .indexError)
      else (c1, some .assertionError)
    else (c, some .indexError)

/-- `np.resize(M, (n, M.shape[1]))`: the flattened data repeated
    cyclically (zero-filled from an empty array). -/
def npResize (M : Matrix) (n : Nat) : Matrix :=
  { M with
    rows :=
      if M.rows.isEmpty then List.replicate n (List.replicate M.dim 0)
      else (List.range n).map (fun i => M.rows.getD (i % M.rows.length) []) }

/-- The `for vector_name, vector in vectors.items()` loop of
    `_add_point`: grow the matrix to `2*idx+1` rows when needed, write
    row `idx`, store the (possibly new) matrix back; on a failed row
    assignment the resized local array is discarded and the loop aborts,
    keeping the names already stored. -/
def addRowsLoop (c : Collection) (vecs : List (String × List ℚ)) (idx : Nat) :
    Collection × Option PyErr :=
  match vecs with
  | [] => (c, none)
  | (name, v) :: rest =>
    match alookup name c.vectors with
    | none => (c, some .keyError)
    | some M =>
      let M1 := if M.rows.length ≤ idx then npResize M (idx * 2 + 1) else M
      match setRow M1 idx v with
      | .error e => (c, some e)
      | .ok M2 => addRowsLoop { c with vectors := aset name M2 c.vectors } rest idx

/-- `LocalCollection._add_point`: the id table, inverse table, payload
    and tombstone entries are appended first, then the name-set assert
    runs, then the rows are written; a failure keeps the appends. -/
def addPoint (c : Collection) (p : PointStruct) : Collection × Option PyErr :=
  let idx := c.ids.length
  let c1 := { c with
    ids := c.ids ++ [(p.id, idx)],
    ids_inv := c.ids_inv ++ [p.id],
    payload := c.payload ++ [p.payload],
    deleted := c.deleted ++ [false] }
  let vectors := normalizeVS p.vector
  if sameNameSet (vectors.map Prod.fst) (c1.vectors.map Prod.fst) then
    addRowsLoop c1 vectors idx
  else (c1, some .assertionError)

/-- Whether an id passes the UUID-form check of `_upsert_point`
    (integer ids always do; string ids must parse as a UUID). -/
def validIdB (E : Externals) : ExtId → Bool
  | .intId _ => true
  | .strId s => E.validUUID s

/-- `LocalCollection._upsert_point` (in-memory mode, so the persistence
    call is a no-op): validate a string id as a UUID before touching any
    state, then update or add. -/
def upsertPoint (E : Externals) (c : Collection) (p : PointStruct) :
    Collection × Option PyErr :=
  if validIdB E p.id then
    if (alookup p.id c.ids).isSome then updatePoint c p else addPoint c p
  else (c, some .valueError)

/-- `LocalCollection._delete_ids` (in-memory mode): look each id up
    (KeyError aborts, keeping earlier tombstones) and set its tombstone. -/
def deleteIdsOp (c : Collection) : List ExtId → Collection × Option PyErr
  | [] => (c, none)
  | pid :: rest =>
    match alookup pid c.ids with
    | none => (c, some .keyError)
    | some idx =>
      if idx < c.deleted.length then
        deleteIdsOp { c with deleted := c.deleted.set idx true } rest
      else (c, some .indexError)

/-- `LocalCollection.__init__` with `location = None`: empty stores, one
    zero-row matrix per configured name. -/
def initCollection (config : CreateCollection) : Collection :=
  let vc := match config.vectors with
    | .single p => [("", p)]
    | .named m => m
  { vectors := vc.map (fun np => (np.1, ⟨np.2.size, []⟩)),
    payload := [], deleted := [], ids := [], ids_inv := [], config := config }

/-- A write action: one `_upsert_point` or one `_delete_ids` call. -/
inductive Action where
  | upsertPt : PointStruct → Action
  | deleteIds : List ExtId → Action
deriving DecidableEq, Repr

/-- Apply one write action. -/
def applyAction (E : Externals) (c : Collection) : Action → Collection × Option PyErr
  | .upsertPt p => upsertPoint E c p
  | .deleteIds l => deleteIdsOp c l

/-- Run a sequence of write actions, carrying the (possibly partially
    mutated) state through failures; the flag records whether every
    action succeeded. -/
def runActions (E : Externals) (c : Collection) : List Action → Collection × Bool
  | [] => (c, true)
  | a :: rest =>
    let s := applyAction E c a
    let t := runActions E s.1 rest
    (t.1, t.2 && s.2.isNone)

/-- The storage invariant of spec §8.1: payload, tombstone and inverse id
    table have one entry per point, and every configured matrix has at
    least that many rows. -/
def StorageInv (c : Collection) : Prop :=
  c.payload.length = c.deleted.length ∧ c.payload.length = c.ids_inv.length ∧
    ∀ name M, alookup name c.vectors = some M → c.payload.length ≤ M.rows.length

/-- Written from the amended projection rule: unwrap a name-to-array map
    exactly when it is a singleton under the default name. -/
def projectVectorsSpec (m : List (String × List ℚ)) : VectorOut :=
  if m.length = 1 && (alookup "" m).isSome then .single ((alookup "" m).getD [])
  else .named m

/-- A sample instantiation of the external collaborators, used to
    evaluate the theorems on concrete inputs: an accept-all filter
    evaluator, a query-independent first-component score kernel (chosen
    so concrete evaluation stays free of rational normalization), the
    spec's metric-direction map and a plain 32-hex-digit UUID check. -/
def E₀ : Externals where
  payloadMask := fun _ pls _ => pls.map (fun _ => true)
  dist := fun _ rows _ => rows.map (fun r => r.headD 0)
  distOrder := fun d => match d with | .Euclid => .smallerIsBetter | _ => .biggerIsBetter
  validUUID := fun s => s.length = 32 && s.toList.all (fun ch => ch.isDigit || (97 ≤ ch.toNat && ch.toNat ≤ 102))

/-- A one-dimensional default-name dot-product collection config. -/
def cfg1 : CreateCollection := ⟨.single ⟨1, .Dot⟩⟩

/-- A two-dimensional default-name dot-product collection config. -/
def cfg2 : CreateCollection := ⟨.single ⟨2, .Dot⟩⟩

instance {ε α : Type} [DecidableEq ε] [DecidableEq α] : DecidableEq (Except ε α) := fun x y =>
  match x, y with
  | .error a, .error b =>
    if h : a = b then .isTrue (by rw [h]) else .isFalse (fun hh => h (Except.error.inj hh))
  | .error _, .ok _ => .isFalse (fun hh => Except.noConfusion hh)
  | .ok _, .error _ => .isFalse (fun hh => Except.noConfusion hh)
  | .ok a, .ok b =>
    if h : a = b then .isTrue (by rw [h]) else .isFalse (fun hh => h (Except.ok.inj hh))

theorem alookup_aset_self {α β : Type} [DecidableEq α] (k : α) (v : β) :
    ∀ l : List (α × β), alookup k (aset k v l) = some v := by
  intro l
  induction l with
  | nil => simp [alookup, aset]
  | cons hd t ih =>
    by_cases h : hd.1 = k
    · simp [alookup, aset, h]
    · simp only [aset]
      rw [show (hd.1, hd.2) = hd from rfl, if_neg h]
      simp only [alookup]
      rw [if_neg h]
      exact ih

theorem alookup_aset_ne {α β : Type} [DecidableEq α] {k k' : α} (v : β) (h : k' ≠ k) :
    ∀ l : List (α × β), alookup k' (aset k v l) = alookup k' l := by
  intro l
  induction l with
  | nil =>
    simp only [aset, alookup]
    rw [if_neg (fun hh => h hh.symm)]
  | cons hd t ih =>
    by_cases hh : hd.1 = k
    · simp only [aset]
      rw [show (hd.1, hd.2) = hd from rfl, if_pos hh]
      simp only [alookup]
      by_cases h3 : hd.1 = k'
      · exact absurd (h3.symm.trans hh) h
      · rw [if_neg h3, if_neg h3]
    · simp only [aset]
      rw [show (hd.1, hd.2) = hd from rfl, if_neg hh]
      simp only [alookup]
      by_cases h3 : hd.1 = k'
      · rw [if_pos h3, if_pos h3]
      · rw [if_neg h3, if_neg h3]
        exact ih

theorem alookup_some_mem {α β : Type} [DecidableEq α] {k : α} {v : β} :
    ∀ {l : List (α × β)}, alookup k l = some v → k ∈ l.map Prod.fst := by
  intro l
  induction l with
  | nil => intro h; simp [alookup] at h
  | cons hd t ih =>
    intro h
    simp only [alookup] at h
    by_cases hh : hd.1 = k
    · simp [hh]
    · rw [if_neg hh] at h
      simp [ih h]

theorem alookup_append_self_of_none {α β : Type} [DecidableEq α] {k : α} (v : β) :
    ∀ {l : List (α × β)}, alookup k l = none → alookup k (l ++ [(k, v)]) = some v := by
  intro l
  induction l with
  | nil => intro _; simp [alookup]
  | cons hd t ih =>
    intro h
    simp only [alookup] at h ⊢
    by_cases hh : hd.1 = k
    · rw [if_pos hh] at h; exact absurd h (by simp)
    · rw [if_neg hh] at h ⊢
      exact ih h

theorem aset_map_fst {α β : Type} [DecidableEq α] (k : α) (v : β) :
    ∀ l : List (α × β), (aset k v l).map Prod.fst = l.map Prod.fst ∨
      (aset k v l).map Prod.fst = l.map Prod.fst ++ [k] := by
  intro l
  induction l with
  | nil => right; simp [aset]
  | cons hd t ih =>
    by_cases h : hd.1 = k
    · left
      simp only [aset]
      rw [show (hd.1, hd.2) = hd from rfl, if_pos h]
      simp
    · simp only [aset]
      rw [show (hd.1, hd.2) = hd from rfl, if_neg h]
      rcases ih with ih | ih
      · left; simp [ih]
      · right; simp [ih]

theorem sameNameSet_mem {a b : List String} (h : sameNameSet a b = true) :
    (∀ x ∈ a, x ∈ b) ∧ ∀ x ∈ b, x ∈ a := by
  simp only [sameNameSet, Bool.and_eq_true, List.all_eq_true, decide_eq_true_eq] at h
  exact h

theorem mapExcept_ok_length {α β : Type} {f : α → Except PyErr β} :
    ∀ {l : List α} {out : List β}, mapExcept f l = .ok out → out.length = l.length := by
  intro l
  induction l with
  | nil => intro out h; simp only [mapExcept] at h; cases h; rfl
  | cons a t ih =>
    intro out h
    simp only [mapExcept] at h
    rcases hf : f a with e | b <;> rw [hf] at h
    · exact absurd h (by simp)
    · rcases ht : mapExcept f t with e | bs <;> rw [ht] at h
      · exact absurd h (by simp)
      · cases h; simp [ih ht]

theorem gatherVectors_ok_length {col : Collection} {vname : String} :
    ∀ {l : List ExtId} {out : List (List ℚ)},
      gatherVectors col vname l = .ok out → out.length = l.length := by
  intro l
  induction l with
  | nil => intro out h; simp only [gatherVectors] at h; cases h; rfl
  | cons pid t ih =>
    intro out h
    simp only [gatherVectors] at h
    split at h
    · simp at h
    · split at h
      · simp at h
      · split at h
        · simp at h
        · split at h
          · simp at h
          · cases h
            rename_i hrec
            simp [ih hrec]

theorem setRow_ok {M M' : Matrix} {idx : Nat} {v : List ℚ} (h : setRow M idx v = .ok M') :
    M'.rows.length = M.rows.length ∧ M'.dim = M.dim ∧ M'.rows[idx]? = some v ∧
      idx < M.rows.length ∧ v.length = M.dim := by
  unfold setRow at h
  split at h
  · split at h
    · cases h
      rename_i hlt hlen
      refine ⟨by simp, rfl, ?_, hlt, hlen⟩
      exact List.getElem?_set_self hlt
    · simp at h
  · simp at h

theorem setRowsLoop_fields : ∀ (vecs : List (String × List ℚ)) (c : Collection) (idx : Nat),
    (setRowsLoop c vecs idx).1.payload = c.payload ∧ (setRowsLoop c vecs idx).1.ids = c.ids ∧
      (setRowsLoop c vecs idx).1.ids_inv = c.ids_inv ∧
      (setRowsLoop c vecs idx).1.deleted = c.deleted ∧
      (setRowsLoop c vecs idx).1.config = c.config := by
  intro vecs
  induction vecs with
  | nil => intro c idx; exact ⟨rfl, rfl, rfl, rfl, rfl⟩
  | cons hd t ih =>
    intro c idx
    obtain ⟨name, v⟩ := hd
    simp only [setRowsLoop]
    split
    · exact ⟨rfl, rfl, rfl, rfl, rfl⟩
    · split
      · exact ⟨rfl, rfl, rfl, rfl, rfl⟩
      · exact ih _ idx

theorem setRowsLoop_rows : ∀ (vecs : List (String × List ℚ)) (c : Collection) (idx : Nat)
    (name : String) (M' : Matrix),
    alookup name (setRowsLoop c vecs idx).1.vectors = some M' →
    ∃ M, alookup name c.vectors = some M ∧ M'.rows.length = M.rows.length := by
  intro vecs
  induction vecs with
  | nil => intro c idx name M' h; exact ⟨M', h, rfl⟩
  | cons hd t ih =>
    intro c idx name M' h
    obtain ⟨n0, v0⟩ := hd
    simp only [setRowsLoop] at h
    split at h
    · exact ⟨M', h, rfl⟩
    · rename_i M0 hM0
      split at h
      · exact ⟨M', h, rfl⟩
      · rename_i M2 hset
        obtain ⟨M1, hM1, hlen⟩ := ih _ idx name M' h
        by_cases he : name = n0
        · subst he
          rw [alookup_aset_self] at hM1
          cases hM1
          exact ⟨M0, hM0, hlen.trans (setRow_ok hset).1⟩
        · rw [alookup_aset_ne _ he] at hM1
          exact ⟨M1, hM1, hlen⟩

theorem setRowsLoop_notin : ∀ (vecs : List (String × List ℚ)) (c : Collection) (idx : Nat)
    (name : String), name ∉ vecs.map Prod.fst →
    alookup name (setRowsLoop c vecs idx).1.vectors = alookup name c.vectors := by
  intro vecs
  induction vecs with
  | nil => intro c idx name _; rfl
  | cons hd t ih =>
    intro c idx name hn
    obtain ⟨n0, v0⟩ := hd
    simp only [List.map_cons, List.mem_cons] at hn
    push_neg at hn
    simp only [setRowsLoop]
    split
    · rfl
    · split
      · rfl
      · rw [ih _ idx name hn.2]
        exact alookup_aset_ne _ hn.1 _

theorem setRowsLoop_written : ∀ (vecs : List (String × List ℚ)) (c : Collection) (idx : Nat)
    (c' : Collection), (vecs.map Prod.fst).Nodup → setRowsLoop c vecs idx = (c', none) →
    ∀ nm v, (nm, v) ∈ vecs →
      ∃ M', alookup nm c'.vectors = some M' ∧ M'.rows[idx]? = some v := by
  intro vecs
  induction vecs with
  | nil => intro c idx c' _ _ nm v hm; simp at hm
  | cons hd t ih =>
    intro c idx c' hnd h nm v hm
    obtain ⟨n0, v0⟩ := hd
    simp only [setRowsLoop] at h
    split at h
    · simp at h
    · rename_i M0 hM0
      split at h
      · simp at h
      · rename_i M2 hset
        simp only [List.map_cons, List.nodup_cons] at hnd
        rcases List.mem_cons.mp hm with heq | hmem
        · cases heq
          refine ⟨M2, ?_, (setRow_ok hset).2.2.1⟩
          rw [show c' = (setRowsLoop { c with vectors := aset nm M2 c.vectors } t idx).1 from
            by rw [h]]
          rw [setRowsLoop_notin t _ idx nm hnd.1]
          exact alookup_aset_self nm M2 _
        · exact ih _ idx c' hnd.2 h nm v hmem

theorem npResize_len (M : Matrix) (n : Nat) : (npResize M n).rows.length = n := by
  unfold npResize
  split <;> simp

theorem addRowsLoop_fields : ∀ (vecs : List (String × List ℚ)) (c : Collection) (idx : Nat),
    (addRowsLoop c vecs idx).1.payload = c.payload ∧ (addRowsLoop c vecs idx).1.ids = c.ids ∧
      (addRowsLoop c vecs idx).1.ids_inv = c.ids_inv ∧
      (addRowsLoop c vecs idx).1.deleted = c.deleted ∧
      (addRowsLoop c vecs idx).1.config = c.config := by
  intro vecs
  induction vecs with
  | nil => intro c idx; exact ⟨rfl, rfl, rfl, rfl, rfl⟩
  | cons hd t ih =>
    intro c idx
    obtain ⟨name, v⟩ := hd
    simp only [addRowsLoop]
    split
    · exact ⟨rfl, rfl, rfl, rfl, rfl⟩
    · split
      · exact ⟨rfl, rfl, rfl, rfl, rfl⟩
      · exact ih _ idx

theorem addRowsLoop_notin : ∀ (vecs : List (String × List ℚ)) (c : Collection) (idx : Nat)
    (name : String), name ∉ vecs.map Prod.fst →
    alookup name (addRowsLoop c vecs idx).1.vectors = alookup name c.vectors := by
  intro vecs
  induction vecs with
  | nil => intro c idx name _; rfl
  | cons hd t ih =>
    intro c idx name hn
    obtain ⟨n0, v0⟩ := hd
    simp only [List.map_cons, List.mem_cons] at hn
    push_neg at hn
    simp only [addRowsLoop]
    split
    · rfl
    · split
      · rfl
      · rw [ih _ idx name hn.2]
        exact alookup_aset_ne _ hn.1 _

theorem addRowsLoop_cover : ∀ (vecs : List (String × List ℚ)) (c : Collection) (idx : Nat)
    (c' : Collection), addRowsLoop c vecs idx = (c', none) →
    ∀ name ∈ vecs.map Prod.fst,
      ∃ M', alookup name c'.vectors = some M' ∧ idx < M'.rows.length := by
  intro vecs
  induction vecs with
  | nil => intro c idx c' _ name hm; simp at hm
  | cons hd t ih =>
    intro c idx c' h name hm
    obtain ⟨n0, v0⟩ := hd
    simp only [addRowsLoop] at h
    split at h
    · simp at h
    · rename_i M0 hM0
      split at h
      · simp at h
      · rename_i M2 hset
        by_cases hmem : name ∈ t.map Prod.fst
        · exact ih _ idx c' h name hmem
        · have hname : name = n0 := by
            rw [List.map_cons] at hm
            rcases List.mem_cons.mp hm with h1 | h1
            · exact h1
            · exact absurd h1 hmem
          subst hname
          refine ⟨M2, ?_, ?_⟩
          · rw [show c' = (addRowsLoop { c with vectors := aset name M2 c.vectors } t idx).1 from
              by rw [h]]
            rw [addRowsLoop_notin t _ idx name hmem]
            exact alookup_aset_self name M2 _
          · have h1 := (setRow_ok hset).1
            have h2 := (setRow_ok hset).2.2.2.1
            omega

theorem addRowsLoop_names : ∀ (vecs : List (String × List ℚ)) (c : Collection) (idx : Nat)
    (name : String), name ∈ (addRowsLoop c vecs idx).1.vectors.map Prod.fst →
    name ∈ c.vectors.map Prod.fst ∨ name ∈ vecs.map Prod.fst := by
  intro vecs
  induction vecs with
  | nil => intro c idx name h; exact Or.inl h
  | cons hd t ih =>
    intro c idx name h
    obtain ⟨n0, v0⟩ := hd
    simp only [addRowsLoop] at h
    split at h
    · exact Or.inl h
    · rename_i M0 hM0
      split at h
      · exact Or.inl h
      · rename_i M2 hset
        rcases ih _ idx name h with h1 | h1
        · rcases aset_map_fst n0 M2 c.vectors with ha | ha <;> rw [ha] at h1
          · exact Or.inl h1
          · rcases List.mem_append.mp h1 with h2 | h2
            · exact Or.inl h2
            · simp only [List.mem_singleton] at h2
              subst h2
              exact Or.inr (by simp)
        · exact Or.inr (by simp [h1])

theorem deleteIdsOp_fields : ∀ (l : List ExtId) (c : Collection),
    (deleteIdsOp c l).1.payload = c.payload ∧ (deleteIdsOp c l).1.ids = c.ids ∧
      (deleteIdsOp c l).1.ids_inv = c.ids_inv ∧ (deleteIdsOp c l).1.vectors = c.vectors ∧
      (deleteIdsOp c l).1.config = c.config ∧
      (deleteIdsOp c l).1.deleted.length = c.deleted.length := by
  intro l
  induction l with
  | nil => intro c; exact ⟨rfl, rfl, rfl, rfl, rfl, rfl⟩
  | cons pid t ih =>
    intro c
    simp only [deleteIdsOp]
    split
    · exact ⟨rfl, rfl, rfl, rfl, rfl, rfl⟩
    · split
      · obtain ⟨h1, h2, h3, h4, h5, h6⟩ := ih { c with deleted := c.deleted.set _ true }
        exact ⟨h1, h2, h3, h4, h5, by simpa using h6⟩
      · exact ⟨rfl, rfl, rfl, rfl, rfl, rfl⟩

theorem updatePoint_ok {c : Collection} {p : PointStruct} {c' : Collection}
    (h : updatePoint c p = (c', none)) :
    ∃ idx, alookup p.id c.ids = some idx ∧ idx < c.payload.length ∧
      c'.ids = c.ids ∧ c'.ids_inv = c.ids_inv ∧ c'.config = c.config ∧
      c'.payload = c.payload.set idx p.payload ∧
      c'.deleted.length = c.deleted.length ∧ c'.deleted[idx]? = some false ∧
      (∀ name M', alookup name c'.vectors = some M' →
        ∃ M, alookup name c.vectors = some M ∧ M'.rows.length = M.rows.length) ∧
      (((normalizeVS p.vector).map Prod.fst).Nodup →
        ∀ nm v, (nm, v) ∈ normalizeVS p.vector →
          ∃ M', alookup nm c'.vectors = some M' ∧ M'.rows[idx]? = some v) := by
  unfold updatePoint at h
  split at h
  · simp at h
  · rename_i idx hidx
    split at h
    · rename_i hlt
      simp only [] at h
      split at h
      · rename_i hsn
        split at h
        · simp at h
        · rename_i hpair c2 hsr
          split at h
          · rename_i hdl
            cases h
            obtain ⟨f1, f2, f3, f4, f5⟩ := setRowsLoop_fields (normalizeVS p.vector) _ idx
            rw [hsr] at f1 f2 f3 f4 f5
            refine ⟨idx, hidx, hlt, f2, f3, f5, f1, ?_, ?_, ?_, ?_⟩
            · simpa using congrArg List.length f4
            · show (c2.deleted.set idx false)[idx]? = some false
              exact List.getElem?_set_self (by rw [f4] at hdl ⊢; exact hdl)
            · intro name M' hM'
              obtain ⟨M, hM, hl⟩ := setRowsLoop_rows (normalizeVS p.vector) _ idx name M'
                (by rw [hsr]; exact hM')
              exact ⟨M, hM, hl⟩
            · intro hnd nm v hmem
              exact setRowsLoop_written (normalizeVS p.vector) _ idx c2 hnd hsr nm v hmem
          · simp at h
      · simp at h
    · simp at h

theorem addPoint_ok {c : Collection} {p : PointStruct} {c' : Collection}
    (h : addPoint c p = (c', none)) :
    sameNameSet ((normalizeVS p.vector).map Prod.fst) (c.vectors.map Prod.fst) = true ∧
      c'.ids = c.ids ++ [(p.id, c.ids.length)] ∧ c'.ids_inv = c.ids_inv ++ [p.id] ∧
      c'.payload = c.payload ++ [p.payload] ∧ c'.deleted = c.deleted ++ [false] ∧
      c'.config = c.config ∧
      (∀ name ∈ (normalizeVS p.vector).map Prod.fst,
        ∃ M', alookup name c'.vectors = some M' ∧ c.ids.length < M'.rows.length) ∧
      (∀ name, name ∈ c'.vectors.map Prod.fst →
        name ∈ c.vectors.map Prod.fst ∨ name ∈ (normalizeVS p.vector).map Prod.fst) := by
  unfold addPoint at h
  simp only [] at h
  split at h
  · rename_i hsn
    obtain ⟨f1, f2, f3, f4, f5⟩ := addRowsLoop_fields (normalizeVS p.vector)
      ⟨c.vectors, c.payload ++ [p.payload], c.deleted ++ [false],
        c.ids ++ [(p.id, c.ids.length)], c.ids_inv ++ [p.id], c.config⟩ c.ids.length
    rw [h] at f1 f2 f3 f4 f5
    refine ⟨hsn, f2, f3, f1, f4, f5, ?_, ?_⟩
    · intro name hname
      exact addRowsLoop_cover (normalizeVS p.vector) _ c.ids.length c' h name hname
    · intro name hname
      have h2 : name ∈ (addRowsLoop
          ⟨c.vectors, c.payload ++ [p.payload], c.deleted ++ [false],
            c.ids ++ [(p.id, c.ids.length)], c.ids_inv ++ [p.id], c.config⟩ (normalizeVS p.vector)
          c.ids.length).1.vectors.map Prod.fst := by
        rw [h]; exact hname
      exact addRowsLoop_names (normalizeVS p.vector)
        ⟨c.vectors, c.payload ++ [p.payload], c.deleted ++ [false],
          c.ids ++ [(p.id, c.ids.length)], c.ids_inv ++ [p.id], c.config⟩ c.ids.length name h2
  · simp at h

/-- A concrete collection holding point `1` with vector `[3]` and empty
    payload, then tombstoned by `_delete_ids([1])`. -/
def c2state : Collection :=
  (deleteIdsOp (upsertPoint E₀ (initCollection cfg1) ⟨.intId 1, some [], .plain [3]⟩).1
    [.intId 1]).1

/-- A concrete two-dimensional collection holding point `1` with vector
    `[1, 2]` and empty payload. -/
def c3fix : Collection :=
  (upsertPoint E₀ (initCollection cfg2) ⟨.intId 1, some [], .plain [1, 2]⟩).1

/-- An upsert of the existing id `1` whose vector name set `{"bad"}`
    does not match the configured `{""}`. -/
def p3bad : PointStruct := ⟨.intId 1, some [("k", .pint 5)], .named [("bad", [1, 2])]⟩

/-- A concrete default-name collection holding point `1` with vector
    `[5]`. -/
def c8fix : Collection :=
  (upsertPoint E₀ (initCollection cfg1) ⟨.intId 1, some [], .plain [5]⟩).1

/-- A concrete collection holding point `7` with a `None` payload. -/
def c9fix : Collection :=
  (upsertPoint E₀ (initCollection cfg1) ⟨.intId 7, none, .plain [4]⟩).1

/-- C2: the claim (spec §8.8: delete followed by retrieve of the same
    ids returns empty) is violated by the code: `retrieve` never
    consults the tombstone array, so after `_delete_ids([1])` a retrieve
    of `[1]` still returns the tombstoned point's record instead of the
    empty list. -/
theorem retrieve_after_delete_returns_tombstoned :
    retrieve c2state [.intId 1] (.boolSel true) (.boolSel false) =
      .ok [⟨.intId 1, some [], none⟩] ∧
    retrieve c2state [.intId 1] (.boolSel true) (.boolSel false) ≠ .ok [] := by
  constructor
  · decide
  · decide

/-- C3 counterexample: a single-point upsert that fails its name-set
    validation (`{"bad"} ≠ {""}`) raises, yet has already overwritten
    the point's payload — so the failed call does not leave the
    collection state unchanged, contradicting the claim. -/
theorem upsert_name_mismatch_mutates_payload :
    (upsertPoint E₀ c3fix p3bad).2 = some .assertionError ∧
    (upsertPoint E₀ c3fix p3bad).1.payload ≠ c3fix.payload := by
  constructor
  · decide
  · decide

/-- C3 amended: only the UUID-form check runs before any mutation, so an
    invalid-UUID string id commits nothing; a name-set mismatch on an
    existing id is detected only after the payload has been overwritten,
    so it leaves that partial commit behind (similarly, dimension errors
    leave earlier-written rows, and failures on a new id leave the
    appended id-table/payload/tombstone entries). -/
theorem upsert_failure_commit_behaviour :
    (∀ (E : Externals) (c : Collection) (p : PointStruct) (s : String), p.id = .strId s →
      E.validUUID s = false → upsertPoint E c p = (c, some .valueError)) ∧
    (∀ (E : Externals) (c : Collection) (p : PointStruct) (idx : Nat),
      validIdB E p.id = true → alookup p.id c.ids = some idx → idx < c.payload.length →
      sameNameSet ((normalizeVS p.vector).map Prod.fst) (c.vectors.map Prod.fst) = false →
      upsertPoint E c p =
        ({ c with payload := c.payload.set idx p.payload }, some .assertionError)) := by
  constructor
  · intro E c p s hid hval
    simp [upsertPoint, validIdB, hid, hval]
  · intro E c p idx hv hl hlt hsn
    simp [upsertPoint, updatePoint, hv, hl, hlt, hsn]

/-- C3 witness: the amended statement evaluated on concrete inputs: an
    invalid-UUID upsert leaves the fresh collection untouched, and the
    name-set-mismatch upsert of `p3bad` commits exactly the payload
    overwrite. -/
theorem upsert_failure_commit_behaviour_witness :
    upsertPoint E₀ (initCollection cfg1) ⟨.strId "zzz", none, .plain [1]⟩ =
      (initCollection cfg1, some .valueError) ∧
    upsertPoint E₀ c3fix p3bad =
      ({ c3fix with payload := c3fix.payload.set 0 p3bad.payload }, some .assertionError) :=
  ⟨upsert_failure_commit_behaviour.1 E₀ (initCollection cfg1) ⟨.strId "zzz", none, .plain [1]⟩
      "zzz" rfl (by decide),
    upsert_failure_commit_behaviour.2 E₀ c3fix p3bad 0 (by decide) (by decide) (by decide)
      (by decide)⟩

/-- C8 counterexample: on a default-only collection, requesting vectors
    by the explicit name list `[""]` returns the bare array (the unwrap
    rule fires after list restriction), not the one-entry map the claim
    prescribes. -/
theorem getVectors_list_default_unwrapped :
    getVectors c8fix 0 (.listSel [""]) = .ok (some (.single [5])) ∧
    getVectors c8fix 0 (.listSel [""]) ≠ .ok (some (.named [("", [5])])) := by
  constructor
  · decide
  · decide

/-- C8 amended: `false` (or an empty name list, which is falsy) omits
    vectors; `true` returns all named vectors with the
    default-only-singleton unwrap; a non-empty list of names returns the
    sub-map restricted to the listed names with the same unwrap rule
    applied to the restricted map — so requesting `[""]` yields the
    bare array. -/
theorem getVectors_projection_behaviour :
    (∀ (c : Collection) (idx : Nat), getVectors c idx (.boolSel false) = .ok none) ∧
    (∀ (c : Collection) (idx : Nat), getVectors c idx (.listSel []) = .ok none) ∧
    (∀ (c : Collection) (idx : Nat) (all : List (String × List ℚ)),
      rowsAt c.vectors idx = .ok all →
      getVectors c idx (.boolSel true) = .ok (some (projectVectorsSpec all))) ∧
    (∀ (c : Collection) (idx : Nat) (names : List String) (all sel : List (String × List ℚ)),
      names ≠ [] → rowsAt c.vectors idx = .ok all →
      restrictNames all (dedupFirst names) = .ok sel →
      getVectors c idx (.listSel names) = .ok (some (projectVectorsSpec sel))) := by
  refine ⟨fun c idx => rfl, fun c idx => rfl, ?_, ?_⟩
  · intro c idx all h
    simp only [getVectors, wvFalsy, h, projectVectorsSpec, Bool.not_true, Bool.false_eq_true,
      if_false, Bool.and_eq_true, decide_eq_true_eq]
    split <;> rfl
  · intro c idx names all sel hne h hr
    simp only [getVectors, wvFalsy, List.isEmpty_eq_false.mpr hne, h, hr, projectVectorsSpec,
      Bool.false_eq_true, if_false, Bool.and_eq_true, decide_eq_true_eq]
    split <;> rfl

/-- C8 witness: the amended statement evaluated on the concrete
    collection `c8fix`: the boolean projection and the `[""]` list
    projection both unwrap to the bare array `[5]`. -/
theorem getVectors_projection_behaviour_witness :
    getVectors c8fix 0 (.boolSel true) = .ok (some (projectVectorsSpec [("", [5])])) ∧
    getVectors c8fix 0 (.listSel [""]) = .ok (some (projectVectorsSpec [("", [5])])) :=
  ⟨getVectors_projection_behaviour.2.2.1 c8fix 0 [("", [5])] (by decide),
    getVectors_projection_behaviour.2.2.2 c8fix 0 [""] [("", [5])] [("", [5])] (by decide)
      (by decide) (by decide)⟩

/-- C9 counterexample: a stored `None` payload is returned as `None` by
    the read path (here retrieve under the default boolean projection),
    not as an empty mapping as the claim states. -/
theorem retrieve_null_payload_returns_null :
    retrieve c9fix [.intId 7] (.boolSel true) (.boolSel false) = .ok [⟨.intId 7, none, none⟩] ∧
    retrieve c9fix [.intId 7] (.boolSel true) (.boolSel false) ≠
      .ok [⟨.intId 7, some [], none⟩] := by
  constructor
  · decide
  · decide

/-- C9 amended: a null/absent payload is passed through as null by the
    boolean projection (so read paths surface it as null, not as an
    empty mapping), and the list and exclude projections raise
    `TypeError` on it. -/
theorem null_payload_read_behaviour :
    (∀ p : Option Payload, getPayloadProj p (.boolSel true) = .ok p) ∧
    (∀ keys : List String, keys ≠ [] →
      getPayloadProj none (.listSel keys) = .error .typeError) ∧
    (∀ keys : List String, getPayloadProj none (.excludeSel keys) = .error .typeError) ∧
    (∀ (c : Collection) (pid : ExtId) (idx : Nat), alookup pid c.ids = some idx →
      c.payload[idx]? = some none →
      retrieve c [pid] (.boolSel true) (.boolSel false) = .ok [⟨pid, none, none⟩]) := by
  refine ⟨fun p => rfl, ?_, fun keys => rfl, ?_⟩
  · intro keys h
    simp [getPayloadProj, wpFalsy, List.isEmpty_eq_false.mpr h]
  · intro c pid idx h1 h2
    simp [retrieve, retrieveLoop, h1, getPayloadAt, h2, getPayloadProj, wpFalsy, getVectors,
      wvFalsy]

/-- C9 witness: the amended statement evaluated on concrete inputs: the
    null payload of point `7` in `c9fix` comes back as null, and a
    non-empty list projection on a null payload raises. -/
theorem null_payload_read_behaviour_witness :
    retrieve c9fix [.intId 7] (.boolSel true) (.boolSel false) = .ok [⟨.intId 7, none, none⟩] ∧
    getPayloadProj none (.listSel ["k"]) = .error .typeError :=
  ⟨null_payload_read_behaviour.2.2.2 c9fix (.intId 7) 0 (by decide) (by decide),
    null_payload_read_behaviour.2.1 ["k"] (by decide)⟩

theorem zipWith_self_add_sub : ∀ (m n : List ℚ),
    List.zipWith (· - ·) (List.zipWith (· + ·) m m) n =
      List.zipWith (· - ·) (m.map (fun x => 2 * x)) n := by
  intro m
  induction m with
  | nil => intro n; simp
  | cons a t ih =>
    intro n
    cases n with
    | nil => simp
    | cons b u => simp [ih, two_mul]

/-- C10: when the caller passes a filter object, a successful recommend
    call leaves that object mutated: a has-id condition over
    `positive ++ negative` has been appended to its `must_not` list
    (creating the list when it was `None`), and the mutation is the
    state of the caller's object after the call returns. -/
theorem recommend_mutates_caller_filter
    (E : Externals) (c : Collection) (positive negative : List ExtId) (f : Filter)
    (limit offset : Nat) (wp : WithPayload) (wv : WithVectors) (thr : Option ℚ)
    (un : Option String) (lc : Option Collection) (lvn : Option String)
    (r : List ScoredPoint)
    (hok : (recommendImpl E c positive negative (some f) limit offset wp wv thr un lc
      lvn).2 = .ok r) :
    (recommendImpl E c positive negative (some f) limit offset wp wv thr un lc lvn).1 =
      some { f with must_not := some (f.must_not.getD [] ++ [Condition.hasId (positive ++ negative)]) } := by
  have h1 : positive.isEmpty = false := by
    rcases hbe : positive.isEmpty
    · rfl
    · exfalso
      unfold recommendImpl at hok
      simp only [] at hok
      rw [hbe] at hok
      simp at hok
  rcases hg1 : gatherVectors (lc.getD c) (lvn.getD (un.getD "")) positive with e | pv
  · exfalso
    unfold recommendImpl at hok
    simp only [] at hok
    rw [if_neg (by simp [h1]), hg1] at hok
    simp at hok
  · rcases hg2 : gatherVectors (lc.getD c) (lvn.getD (un.getD "")) negative with e | nv
    · exfalso
      unfold recommendImpl at hok
      simp only [] at hok
      rw [if_neg (by simp [h1]), hg1, hg2] at hok
      simp at hok
    · unfold recommendImpl
      simp only []
      rw [if_neg (by simp [h1]), hg1, hg2]

/-- C5: a recommend call whose example ids all resolve delegates to
    search with the query vector `mean(positive)` (no negatives) or
    `2*mean(positive) - mean(negative)` (with negatives), and with the
    caller's filter augmented by a must-not-have-id clause whose id list
    is the union of the positive and negative ids. -/
theorem recommend_delegates_mean_query
    (E : Externals) (c : Collection) (positive negative : List ExtId)
    (qf : Option Filter) (limit offset : Nat) (wp : WithPayload) (wv : WithVectors)
    (thr : Option ℚ) (un : Option String) (lc : Option Collection) (lvn : Option String)
    (pv nv : List (List ℚ))
    (hp : positive ≠ [])
    (hpos : gatherVectors (lc.getD c) (lvn.getD (un.getD "")) positive = .ok pv)
    (hneg : gatherVectors (lc.getD c) (lvn.getD (un.getD "")) negative = .ok nv) :
    recommend E c positive negative qf limit offset wp wv thr un lc lvn =
      search E c (.pair (un.getD "",
          if negative = [] then vecMean pv
          else List.zipWith (· - ·) ((vecMean pv).map (fun x => 2 * x)) (vecMean nv)))
        (some (augmentedFilter qf (positive ++ negative))) limit offset wp wv thr ∧
    (∀ x, x ∈ positive ++ negative ↔ x ∈ positive ∨ x ∈ negative) := by
  constructor
  · have hvec :
        (if nv.isEmpty then vecMean pv
          else List.zipWith (· - ·) (List.zipWith (· + ·) (vecMean pv) (vecMean pv))
            (vecMean nv)) =
        (if negative = [] then vecMean pv
          else List.zipWith (· - ·) ((vecMean pv).map (fun x => 2 * x)) (vecMean nv)) := by
      rcases negative with _ | ⟨a, t⟩
      · have hl := gatherVectors_ok_length hneg
        simp at hl
        simp [hl]
      · have hl := gatherVectors_ok_length hneg
        rcases nv with _ | ⟨b, u⟩
        · simp at hl
        · rw [if_neg (by simp), if_neg (List.cons_ne_nil a t)]
          exact zipWith_self_add_sub _ _
    have step1 : recommend E c positive negative qf limit offset wp wv thr un lc lvn =
        search E c (.pair (un.getD "",
            if nv.isEmpty then vecMean pv
            else List.zipWith (· - ·)
              (List.zipWith (· + ·) (vecMean pv) (vecMean pv)) (vecMean nv)))
          (some (augmentedFilter qf (positive ++ negative))) limit offset wp wv thr := by
      unfold recommend recommendImpl
      simp only []
      rw [if_neg (by simp [List.isEmpty_eq_false.mpr hp]), hpos, hneg]
      cases qf <;> rfl
    rw [hvec] at step1
    exact step1
  · intro x
    exact List.mem_append

/-- The strengthened induction invariant for C6: the storage invariant
    plus agreement of the id table's size with the store sizes. -/
def InvFull (c : Collection) : Prop := StorageInv c ∧ c.ids.length = c.payload.length

theorem initCollection_inv (config : CreateCollection) : InvFull (initCollection config) := by
  refine ⟨⟨rfl, rfl, ?_⟩, rfl⟩
  intro name M _
  exact Nat.zero_le _

theorem applyAction_inv {E : Externals} {c c' : Collection} {a : Action}
    (hinv : InvFull c) (h : applyAction E c a = (c', none)) : InvFull c' := by
  obtain ⟨⟨s1, s2, s3⟩, s4⟩ := hinv
  cases a with
  | deleteIds l =>
    obtain ⟨f1, f2, f3, f4, f5, f6⟩ := deleteIdsOp_fields l c
    have hc : c' = (deleteIdsOp c l).1 := by
      rw [show applyAction E c (.deleteIds l) = deleteIdsOp c l from rfl] at h
      rw [h]
    refine ⟨⟨?_, ?_, ?_⟩, ?_⟩
    · rw [hc, f1, f6]; exact s1
    · rw [hc, f1, f3]; exact s2
    · intro name M hM
      rw [hc, f1]
      rw [hc, f4] at hM
      exact s3 name M hM
    · rw [hc, f1, f2]; exact s4
  | upsertPt p =>
    rw [show applyAction E c (.upsertPt p) = upsertPoint E c p from rfl] at h
    unfold upsertPoint at h
    split at h
    · split at h
      · obtain ⟨idx, hidx, hlt, hids, hinv2, hcfg, hpl, hdl, hdidx, hrows, hwr⟩ :=
          updatePoint_ok h
        refine ⟨⟨?_, ?_, ?_⟩, ?_⟩
        · rw [hpl, hdl]; simpa using s1
        · rw [hpl, hinv2]; simpa using s2
        · intro name M hM
          obtain ⟨M0, hM0, hlen⟩ := hrows name M hM
          rw [hpl, List.length_set, hlen]
          exact s3 name M0 hM0
        · rw [hids, hpl]; simpa using s4
      · obtain ⟨hsn, hids, hinv2, hpl, hdl, hcfg, hcover, hnames⟩ := addPoint_ok h
        refine ⟨⟨?_, ?_, ?_⟩, ?_⟩
        · rw [hpl, hdl]; simpa using s1
        · rw [hpl, hinv2]; simpa using s2
        · intro name M hM
          have hmem : name ∈ ((normalizeVS p.vector).map Prod.fst) := by
            rcases hnames name (alookup_some_mem hM) with h1 | h1
            · exact (sameNameSet_mem hsn).2 name h1
            · exact h1
          obtain ⟨M', hM', hrowslt⟩ := hcover name hmem
          rw [hM'] at hM
          cases hM
          rw [hpl]
          simp only [List.length_append, List.length_singleton]
          omega
        · rw [hids, hpl]; simp [s4]
    · simp at h

theorem runActions_inv (E : Externals) : ∀ (acts : List Action) (c : Collection),
    InvFull c → (runActions E c acts).2 = true → InvFull (runActions E c acts).1 := by
  intro acts
  induction acts with
  | nil => intro c h _; exact h
  | cons a t ih =>
    intro c h hok
    simp only [runActions] at hok ⊢
    rw [Bool.and_eq_true] at hok
    have hnone : (applyAction E c a).2 = none := Option.isNone_iff_eq_none.mp hok.2
    exact ih _ (applyAction_inv h (Prod.ext rfl hnone)) hok.1

/-- C6: after any sequence of successful upserts and deletes starting
    from a fresh collection, the payload list, the tombstone array and
    the internal-to-external id list have the same length, and every
    configured matrix has at least that many rows. -/
theorem storage_invariant_after_writes (E : Externals) (config : CreateCollection)
    (acts : List Action) (hok : (runActions E (initCollection config) acts).2 = true) :
    StorageInv (runActions E (initCollection config) acts).1 :=
  (runActions_inv E acts (initCollection config) (initCollection_inv config) hok).1

/-- C6 witness: the invariant evaluated after a concrete
    upsert/delete/upsert sequence. -/
theorem storage_invariant_after_writes_witness :
    StorageInv (runActions E₀ (initCollection cfg1)
      [.upsertPt ⟨.intId 1, some [], .plain [3]⟩, .deleteIds [.intId 1],
        .upsertPt ⟨.intId 2, none, .plain [4]⟩]).1 :=
  storage_invariant_after_writes E₀ cfg1
    [.upsertPt ⟨.intId 1, some [], .plain [3]⟩, .deleteIds [.intId 1],
      .upsertPt ⟨.intId 2, none, .plain [4]⟩] (by decide)

/-- C7: an upsert of an id already present (tombstoned or not) re-uses
    the same internal index: the id table and the store sizes are
    unchanged, the payload and each supplied vector row are overwritten
    in place at that index, and the tombstone is cleared; an upsert of
    an unknown id appends, assigning internal index `len` with the id
    count growing to `len + 1`. -/
theorem upsert_existing_id_reuses_index
    (E : Externals) (c : Collection) (p : PointStruct) (c' : Collection)
    (hv : validIdB E p.id = true)
    (hnd : ((normalizeVS p.vector).map Prod.fst).Nodup)
    (hs : upsertPoint E c p = (c', none)) :
    (∀ idx, alookup p.id c.ids = some idx →
      c'.ids = c.ids ∧ c'.ids.length = c.ids.length ∧
      c'.payload.length = c.payload.length ∧
      c'.payload[idx]? = some p.payload ∧ c'.deleted[idx]? = some false ∧
      ∀ nm v, (nm, v) ∈ normalizeVS p.vector →
        ∃ M', alookup nm c'.vectors = some M' ∧ M'.rows[idx]? = some v) ∧
    (alookup p.id c.ids = none →
      alookup p.id c'.ids = some c.ids.length ∧ c'.ids.length = c.ids.length + 1 ∧
      c'.payload.length = c.payload.length + 1) := by
  constructor
  · intro idx hidx
    have hup : updatePoint c p = (c', none) := by
      unfold upsertPoint at hs
      rw [hv, hidx] at hs
      simpa using hs
    obtain ⟨idx2, hidx2, hlt, hids, hinv2, hcfg, hpl, hdl, hdidx, hrows, hwr⟩ :=
      updatePoint_ok hup
    rw [hidx] at hidx2
    cases hidx2
    refine ⟨hids, by rw [hids], ?_, ?_, hdidx, hwr hnd⟩
    · rw [hpl]; simp
    · rw [hpl]; exact List.getElem?_set_self hlt
  · intro hidx
    have hadd : addPoint c p = (c', none) := by
      unfold upsertPoint at hs
      rw [hv, hidx] at hs
      simpa using hs
    obtain ⟨hsn, hids, hinv2, hpl, hdl, hcfg, hcover, hnames⟩ := addPoint_ok hadd
    refine ⟨?_, ?_, ?_⟩
    · rw [hids]; exact alookup_append_self_of_none _ hidx
    · rw [hids]; simp
    · rw [hpl]; simp

/-- C7 witness: upserting the tombstoned id `1` of `c2state` re-uses
    index 0 (id table unchanged, tombstone cleared), and upserting the
    fresh id `5` grows the id table by one. -/
theorem upsert_existing_id_reuses_index_witness :
    ((upsertPoint E₀ c2state ⟨.intId 1, some [("x", .pint 9)], .plain [7]⟩).1.ids =
        c2state.ids ∧
      (upsertPoint E₀ c2state ⟨.intId 1, some [("x", .pint 9)], .plain [7]⟩).1.deleted[0]? =
        some false) ∧
    (upsertPoint E₀ c2state ⟨.intId 5, none, .plain [9]⟩).1.ids.length =
      c2state.ids.length + 1 :=
  ⟨⟨((upsert_existing_id_reuses_index E₀ c2state ⟨.intId 1, some [("x", .pint 9)], .plain [7]⟩
        (upsertPoint E₀ c2state ⟨.intId 1, some [("x", .pint 9)], .plain [7]⟩).1 (by decide)
        (by decide) rfl).1 0 (by decide)).1,
      ((upsert_existing_id_reuses_index E₀ c2state ⟨.intId 1, some [("x", .pint 9)], .plain [7]⟩
        (upsertPoint E₀ c2state ⟨.intId 1, some [("x", .pint 9)], .plain [7]⟩).1 (by decide)
        (by decide) rfl).1 0 (by decide)).2.2.2.2.1⟩,
    ((upsert_existing_id_reuses_index E₀ c2state ⟨.intId 5, none, .plain [9]⟩
        (upsertPoint E₀ c2state ⟨.intId 5, none, .plain [9]⟩).1 (by decide) (by decide)
        rfl).2 (by decide)).2.1⟩

/-- A concrete collection with points `1 ↦ [1]` and `2 ↦ [2]`. -/
def crec : Collection :=
  (runActions E₀ (initCollection cfg1)
    [.upsertPt ⟨.intId 1, some [], .plain [1]⟩, .upsertPt ⟨.intId 2, some [], .plain [2]⟩]).1

/-- Evaluation helper: a recommend call whose example gathering is known
    reduces to its delegated search call and the mutated caller filter. -/
theorem recommendImpl_gather_eval
    (E : Externals) (c : Collection) (positive negative : List ExtId)
    (qf : Option Filter) (limit offset : Nat) (wp : WithPayload) (wv : WithVectors)
    (thr : Option ℚ) (un : Option String) (lc : Option Collection) (lvn : Option String)
    (pv nv : List (List ℚ))
    (hp : positive.isEmpty = false)
    (hpos : gatherVectors (lc.getD c) (lvn.getD (un.getD "")) positive = .ok pv)
    (hneg : gatherVectors (lc.getD c) (lvn.getD (un.getD "")) negative = .ok nv) :
    recommendImpl E c positive negative qf limit offset wp wv thr un lc lvn =
      ((match qf with
        | none => none
        | some f => some { f with must_not := some (f.must_not.getD [] ++ [Condition.hasId (positive ++ negative)]) }),
       search E c (.pair (un.getD "",
           if nv.isEmpty then vecMean pv
           else List.zipWith (· - ·) (List.zipWith (· + ·) (vecMean pv) (vecMean pv))
             (vecMean nv)))
         (some (augmentedFilter qf (positive ++ negative))) limit offset wp wv thr) := by
  unfold recommendImpl
  simp only []
  rw [if_neg (by simp [hp]), hpos, hneg]
  cases qf <;> rfl

/-- C10 witness: a successful concrete recommend call on `crec` whose
    caller filter (initially with `must_not = None`) comes back with the
    synthesized has-id clause appended. -/
theorem recommend_mutates_caller_filter_witness :
    (recommendImpl E₀ crec [.intId 1] [] (some ⟨none, none, none⟩) 1 0 (.boolSel true)
        (.boolSel false) none none none none).1 =
      some ⟨none, none, some [Condition.hasId ([.intId 1] ++ [])]⟩ :=
  recommend_mutates_caller_filter E₀ crec [.intId 1] [] ⟨none, none, none⟩ 1 0
    (.boolSel true) (.boolSel false) none none none none
    [⟨.intId 2, 2, 0, some [], none⟩]
    (by rw [recommendImpl_gather_eval E₀ crec [.intId 1] [] (some ⟨none, none, none⟩) 1 0
        (.boolSel true) (.boolSel false) none none none none [[1]] [] rfl (by decide) rfl]
        decide)

/-- C5 witness: the delegation equation evaluated on a concrete
    recommend call with one positive and one negative example. -/
theorem recommend_delegates_mean_query_witness :
    recommend E₀ crec [.intId 1] [.intId 2] none 1 0 (.boolSel true) (.boolSel false) none
        none none none =
      search E₀ crec (.pair ((none : Option String).getD "",
          if ([.intId 2] : List ExtId) = [] then vecMean [[1]]
          else List.zipWith (· - ·) ((vecMean [[1]]).map (fun x => 2 * x)) (vecMean [[2]])))
        (some (augmentedFilter none ([.intId 1] ++ [.intId 2]))) 1 0 (.boolSel true)
        (.boolSel false) none :=
  (recommend_delegates_mean_query E₀ crec [.intId 1] [.intId 2] none 1 0 (.boolSel true)
    (.boolSel false) none none none none [[1]] [[2]] (by decide) (by decide) (by decide)).1

theorem selectedIndices_zero (mask : List Bool) (bigger : Bool) (thr : Option ℚ)
    (scores : List ℚ) (order : List Nat) :
    selectedIndices mask bigger thr scores 0 order = [] := by
  simp [selectedIndices]

theorem selectedIndices_cons_skip {mask : List Bool} {idx : Nat}
    (bigger : Bool) (thr : Option ℚ) (scores : List ℚ) (lim : Nat) (rest : List Nat)
    (hm : mask.getD idx false = false) :
    selectedIndices mask bigger thr scores lim (idx :: rest) =
      selectedIndices mask bigger thr scores lim rest := by
  simp only [selectedIndices, List.filter_cons, hm, Bool.false_eq_true, if_false]

theorem selectedIndices_cons_crossed {mask : List Bool} {bigger : Bool} {thr : Option ℚ}
    {scores : List ℚ} {idx : Nat} (lim : Nat) (rest : List Nat)
    (hm : mask.getD idx false = true)
    (ht : thresholdCrossed bigger thr (scores.getD idx 0) = true) :
    selectedIndices mask bigger thr scores lim (idx :: rest) = [] := by
  simp only [selectedIndices, List.filter_cons, hm, if_true, List.takeWhile_cons, ht,
    Bool.not_true, Bool.false_eq_true, if_false, List.take_nil]

theorem selectedIndices_cons_take {mask : List Bool} {bigger : Bool} {thr : Option ℚ}
    {scores : List ℚ} {idx : Nat} {lim : Nat} (rest : List Nat)
    (hm : mask.getD idx false = true)
    (ht : thresholdCrossed bigger thr (scores.getD idx 0) = false)
    (hpos : 0 < lim) :
    selectedIndices mask bigger thr scores lim (idx :: rest) =
      idx :: selectedIndices mask bigger thr scores (lim - 1) rest := by
  obtain ⟨k, rfl⟩ : ∃ k, lim = k + 1 := ⟨lim - 1, by omega⟩
  simp only [selectedIndices, List.filter_cons, hm, if_true, List.takeWhile_cons, ht,
    Bool.not_false, List.take_succ_cons, Nat.add_sub_cancel]

theorem selectedIndices_length_le (mask : List Bool) (bigger : Bool) (thr : Option ℚ)
    (scores : List ℚ) (lim : Nat) (order : List Nat) :
    (selectedIndices mask bigger thr scores lim order).length ≤ lim := by
  simp only [selectedIndices]
  exact List.length_take_le _ _

theorem searchWalk_eq (c : Collection) (scores : List ℚ) (mask : List Bool)
    (wp : WithPayload) (wv : WithVectors) (thr : Option ℚ) (bigger : Bool) :
    ∀ (order : List Nat), (∀ i ∈ order, i < c.ids_inv.length) →
    ∀ (lim : Nat) (acc : List ScoredPoint),
    searchWalk c scores mask wp wv thr bigger lim order acc =
      match mapExcept (mkScoredPoint c wp wv scores)
          (selectedIndices mask bigger thr scores (lim - acc.length) order) with
      | .error e => .error e
      | .ok pts => .ok (acc ++ pts) := by
  intro order
  induction order with
  | nil =>
    intro _ lim acc
    simp [searchWalk, selectedIndices, mapExcept]
  | cons idx rest ih =>
    intro hin lim acc
    have hidx : idx < c.ids_inv.length := hin idx (by simp)
    have hrest : ∀ i ∈ rest, i < c.ids_inv.length := fun i hi => hin i (by simp [hi])
    by_cases hl : lim ≤ acc.length
    · rw [searchWalk, if_pos hl, Nat.sub_eq_zero_of_le hl, selectedIndices_zero]
      simp [mapExcept]
    · have hlt : acc.length < lim := Nat.lt_of_not_le hl
      rcases hm : mask.getD idx false with _ | _
      · rw [searchWalk, if_neg hl, if_pos (by rw [hm]; decide), ih hrest lim acc,
          selectedIndices_cons_skip _ _ _ _ _ hm]
      · have hpid : c.ids_inv[idx]? = some c.ids_inv[idx] := List.getElem?_eq_getElem hidx
        rcases ht : thresholdCrossed bigger thr (scores.getD idx 0) with _ | _
        · rw [selectedIndices_cons_take rest hm ht (by omega)]
          rw [searchWalk, if_neg hl, if_neg (by rw [hm]; decide), hpid]
          simp only [ht, Bool.false_eq_true, if_false, mapExcept, mkScoredPoint, hpid]
          rcases hpl : getPayloadAt c idx wp with e | pl
          · rfl
          · simp only []
            rcases hv : getVectors c idx wv with e | vo
            · rfl
            · simp only []
              rw [ih hrest lim]
              simp only [List.length_append, List.length_singleton]
              rw [← Nat.sub_sub]
              rcases hmap : mapExcept (mkScoredPoint c wp wv scores)
                  (selectedIndices mask bigger thr scores (lim - acc.length - 1) rest) with
                e | pts
              · rfl
              · simp
        · rw [searchWalk, if_neg hl, if_neg (by rw [hm]; decide), hpid]
          simp only [ht, if_true]
          rw [selectedIndices_cons_crossed _ rest hm ht]
          simp [mapExcept]

/-- C1: search is the walk of the score-sorted index permutation
    (ascending argsort, reversed for bigger-is-better metrics), skipping
    masked-out indices, early-breaking at the score threshold,
    accumulating at most `limit + offset` results and dropping the first
    `offset` — stated as equality with the spec-side selection pipeline
    `searchSpec`, the `limit` bound on the returned page, and the
    sortedness/permutation facts for the argsort order. -/
theorem search_matches_spec (E : Externals) (c : Collection) (qv : QueryVector)
    (filt : Option Filter) (limit offset : Nat) (wp : WithPayload) (wv : WithVectors)
    (thr : Option ℚ) (hlen : searchScoresLen E c qv ≤ c.ids_inv.length) :
    search E c qv filt limit offset wp wv thr = searchSpec E c qv filt limit offset wp wv thr ∧
    (∀ r, search E c qv filt limit offset wp wv thr = .ok r → r.length ≤ limit) ∧
    (∀ s : List ℚ, (argsortAsc s).Perm (List.range s.length) ∧
      (argsortAsc s).Sorted (fun i j => s.getD i 0 ≤ s.getD j 0)) := by
  have hsort : ∀ s : List ℚ, (argsortAsc s).Perm (List.range s.length) ∧
      (argsortAsc s).Sorted (fun i j => s.getD i 0 ≤ s.getD j 0) := by
    intro s
    constructor
    · exact List.perm_insertionSort _ _
    · haveI : IsTotal Nat (fun i j => s.getD i 0 ≤ s.getD j 0) := ⟨fun a b => le_total _ _⟩
      haveI : IsTrans Nat (fun i j => s.getD i 0 ≤ s.getD j 0) :=
        ⟨fun a b d h1 h2 => le_trans h1 h2⟩
      exact List.sorted_insertionSort _ _
  have heq : search E c qv filt limit offset wp wv thr =
      searchSpec E c qv filt limit offset wp wv thr := by
    unfold search searchSpec
    unfold searchScoresLen at hlen
    simp only [] at hlen ⊢
    rcases halo : alookup (resolveVectorName qv).1 c.vectors with _ | M
    · rfl
    · simp only []
      rw [halo] at hlen
      simp only [] at hlen
      rcases hgp : get_vector_params c (resolveVectorName qv).1 with e | params
      · rfl
      · simp only []
        rw [hgp] at hlen
        simp only [] at hlen
        have hin : ∀ i ∈ (if E.distOrder params.distance = DistanceOrder.biggerIsBetter then
            (argsortAsc (E.dist (resolveVectorName qv).2 (M.rows.take c.payload.length)
              params.distance)).reverse
            else argsortAsc (E.dist (resolveVectorName qv).2 (M.rows.take c.payload.length)
              params.distance)), i < c.ids_inv.length := by
          intro i hi
          have hmem : i ∈ argsortAsc (E.dist (resolveVectorName qv).2
              (M.rows.take c.payload.length) params.distance) := by
            by_cases hb : E.distOrder params.distance = DistanceOrder.biggerIsBetter
            · rw [if_pos hb] at hi
              exact List.mem_reverse.mp hi
            · rw [if_neg hb] at hi
              exact hi
          have hmem2 := (hsort _).1.mem_iff.mp hmem
          have hi2 := List.mem_range.mp hmem2
          omega
        rw [searchWalk_eq c (E.dist (resolveVectorName qv).2 (M.rows.take c.payload.length)
            params.distance) _ wp wv thr _ _ hin (limit + offset) []]
        simp only [List.length_nil, Nat.sub_zero]
        rcases hmap : mapExcept (mkScoredPoint c wp wv (E.dist (resolveVectorName qv).2
            (M.rows.take c.payload.length) params.distance)) _ with e | pts
        · rfl
        · rfl
  have hbound : ∀ r, searchSpec E c qv filt limit offset wp wv thr = .ok r →
      r.length ≤ limit := by
    intro r hr
    unfold searchSpec at hr
    simp only [] at hr
    split at hr
    · simp at hr
    · split at hr
      · simp at hr
      · split at hr
        · simp at hr
        · rename_i pts hmap
          cases hr
          have h1 := mapExcept_ok_length hmap
          rw [List.length_drop, h1]
          refine tsub_le_iff_right.mpr ?_
          exact selectedIndices_length_le _ _ _ _ _ _
  exact ⟨heq, fun r hr => hbound r (heq ▸ hr), hsort⟩

theorem scrollCandidates_zero (mask : List Bool) (off : Option ExtId)
    (sorted : List (ExtId × Nat)) : scrollCandidates mask off 0 sorted = [] := by
  simp [scrollCandidates]

theorem scrollCandidates_cons_skip (mask : List Bool) (off : Option ExtId) (cap : Nat)
    {pi : ExtId × Nat} (rest : List (ExtId × Nat)) (h : offSkip off pi.1 = true) :
    scrollCandidates mask off cap (pi :: rest) = scrollCandidates mask off cap rest := by
  simp only [scrollCandidates, List.filter_cons, h, Bool.not_true, Bool.false_eq_true, if_false]

theorem scrollCandidates_cons_unmasked (off : Option ExtId) (cap : Nat) {mask : List Bool}
    {pi : ExtId × Nat} (rest : List (ExtId × Nat)) (h1 : offSkip off pi.1 = false)
    (h2 : mask.getD pi.2 false = false) :
    scrollCandidates mask off cap (pi :: rest) = scrollCandidates mask off cap rest := by
  simp only [scrollCandidates, List.filter_cons, h1, Bool.not_false, if_true, h2,
    Bool.false_eq_true, if_false]

theorem scrollCandidates_cons_take {mask : List Bool} {off : Option ExtId} {cap : Nat}
    {pi : ExtId × Nat} (rest : List (ExtId × Nat)) (h1 : offSkip off pi.1 = false)
    (h2 : mask.getD pi.2 false = true) (hpos : 0 < cap) :
    scrollCandidates mask off cap (pi :: rest) =
      pi :: scrollCandidates mask off (cap - 1) rest := by
  obtain ⟨k, rfl⟩ : ∃ k, cap = k + 1 := ⟨cap - 1, by omega⟩
  simp only [scrollCandidates, List.filter_cons, h1, Bool.not_false, if_true, h2,
    List.take_succ_cons, Nat.add_sub_cancel]

theorem scrollWalk_eq (c : Collection) (mask : List Bool) (wp : WithPayload)
    (wv : WithVectors) (off : Option ExtId) :
    ∀ (sorted : List (ExtId × Nat)) (cap : Nat) (acc : List Record),
    scrollWalk c mask wp wv off cap sorted acc =
      match mapExcept (mkRecord c wp wv) (scrollCandidates mask off (cap - acc.length) sorted)
        with
      | .error e => .error e
      | .ok rs => .ok (acc ++ rs) := by
  intro sorted
  induction sorted with
  | nil =>
    intro cap acc
    simp [scrollWalk, scrollCandidates, mapExcept]
  | cons pi rest ih =>
    intro cap acc
    rcases hskip : offSkip off pi.1 with _ | _
    · by_cases hcap : cap ≤ acc.length
      · rw [scrollWalk, if_neg (by rw [hskip]; decide), if_pos hcap,
          Nat.sub_eq_zero_of_le hcap, scrollCandidates_zero]
        simp [mapExcept]
      · rcases hm : mask.getD pi.2 false with _ | _
        · rw [scrollWalk, if_neg (by rw [hskip]; decide), if_neg hcap,
            if_pos (by rw [hm]; decide), ih cap acc,
            scrollCandidates_cons_unmasked off _ rest hskip hm]
        · rw [scrollCandidates_cons_take rest hskip hm (by omega)]
          rw [scrollWalk, if_neg (by rw [hskip]; decide), if_neg hcap,
            if_neg (by rw [hm]; decide)]
          simp only [mapExcept]
          rcases hr : mkRecord c wp wv pi with e | r
          · rfl
          · simp only []
            rw [ih cap (acc ++ [r])]
            simp only [List.length_append, List.length_singleton]
            rw [← Nat.sub_sub]
            rcases hmap : mapExcept (mkRecord c wp wv)
                (scrollCandidates mask off (cap - acc.length - 1) rest) with e | rs
            · rfl
            · simp
    · rw [scrollWalk, if_pos (by rw [hskip]), ih cap acc,
        scrollCandidates_cons_skip mask off _ rest hskip]

theorem ukLe_total : ∀ a b : String × Nat, ukLe a b ∨ ukLe b a := by
  intro a b
  rcases lt_trichotomy a.1 b.1 with h | h | h
  · exact Or.inl (Or.inl h)
  · rcases Nat.le_total a.2 b.2 with h2 | h2
    · exact Or.inl (Or.inr ⟨h, h2⟩)
    · exact Or.inr (Or.inr ⟨h.symm, h2⟩)
  · exact Or.inr (Or.inl h)

theorem ukLe_trans : ∀ a b d : String × Nat, ukLe a b → ukLe b d → ukLe a d := by
  rintro a b d (h1 | ⟨h1, h2⟩) (h3 | ⟨h3, h4⟩)
  · exact Or.inl (lt_trans h1 h3)
  · exact Or.inl (h3 ▸ h1)
  · exact Or.inl (h1 ▸ h3)
  · exact Or.inr ⟨h1.trans h3, le_trans h2 h4⟩

/-- C4: scroll visits points in universal-key order (sorted ascending by
    `universal_id`, under which integer keys order numerically, string
    keys lexicographically, and every integer id precedes every
    non-empty string id), skips ids strictly below the offset (an id of
    equal key is kept), collects at most `limit + 1` masked matches and
    splits them into the page and next offset — stated as equality with
    the spec-side pipeline `scrollSpec`, the `([], none)` result on an
    empty id table for every filter and evaluator, and the order facts. -/
theorem scroll_matches_spec (E : Externals) (c : Collection) (filt : Option Filter)
    (limit : Nat) (off : Option ExtId) (wp : WithPayload) (wv : WithVectors) :
    scroll E c filt limit off wp wv = scrollSpec E c filt limit off wp wv ∧
    (c.ids = [] → scroll E c filt limit off wp wv = .ok ([], none)) ∧
    (sortIds c.ids).Perm c.ids ∧
    List.Pairwise (fun x y : ExtId × Nat => ukLe (universal_id x.1) (universal_id y.1))
      (sortIds c.ids) ∧
    (∀ m n : Nat, ukLt (universal_id (.intId m)) (universal_id (.intId n)) ↔ m < n) ∧
    (∀ s t : String, ukLt (universal_id (.strId s)) (universal_id (.strId t)) ↔ s < t) ∧
    (∀ (n : Nat) (s : String), s ≠ "" →
      ukLt (universal_id (.intId n)) (universal_id (.strId s))) ∧
    (∀ o pid : ExtId, universal_id pid = universal_id o → offSkip (some o) pid = false) := by
  refine ⟨?_, ?_, ?_, ?_, ?_, ?_, ?_, ?_⟩
  · unfold scroll scrollSpec
    by_cases hemp : c.ids.isEmpty
    · rw [if_pos hemp, if_pos hemp]
    · rw [if_neg hemp, if_neg hemp]
      simp only []
      rw [scrollWalk_eq c _ wp wv off (sortIds c.ids) (limit + 1) []]
      simp only [List.length_nil, Nat.sub_zero]
      rcases hmap : mapExcept (mkRecord c wp wv) _ with e | rs
      · rfl
      · rfl
  · intro h
    unfold scroll
    rw [if_pos (by simp [h])]
  · exact List.perm_insertionSort _ _
  · haveI : IsTotal (ExtId × Nat)
        (fun x y => ukLe (universal_id x.1) (universal_id y.1)) :=
      ⟨fun a b => ukLe_total _ _⟩
    haveI : IsTrans (ExtId × Nat)
        (fun x y => ukLe (universal_id x.1) (universal_id y.1)) :=
      ⟨fun a b d h1 h2 => ukLe_trans _ _ _ h1 h2⟩
    exact List.sorted_insertionSort _ _
  · intro m n
    constructor
    · rintro (h | ⟨_, h⟩)
      · exact absurd h (lt_irrefl _)
      · exact h
    · exact fun h => Or.inr ⟨rfl, h⟩
  · intro s t
    constructor
    · rintro (h | ⟨_, h⟩)
      · exact h
      · exact absurd h (lt_irrefl _)
    · exact fun h => Or.inl h
  · intro n s hs
    left
    show "" < s
    obtain ⟨data⟩ := s
    cases data with
    | nil => exact absurd rfl hs
    | cons ch t => exact String.lt_iff_toList_lt.mpr (List.nil_lt_cons ch t)
  · intro o pid h
    simp only [offSkip, h]
    rw [decide_eq_false]
    rintro (hlt | ⟨_, hlt⟩) <;> exact absurd hlt (lt_irrefl _)

/-- C4 witness: the scroll/spec equality evaluated on the concrete
    collection `crec` and on the empty collection, plus concrete order
    facts. -/
theorem scroll_matches_spec_witness :
    scroll E₀ crec none 1 none (.boolSel true) (.boolSel false) =
      scrollSpec E₀ crec none 1 none (.boolSel true) (.boolSel false) ∧
    scroll E₀ (initCollection cfg1) none 10 none (.boolSel true) (.boolSel false) =
      .ok ([], none) ∧
    ukLt (universal_id (.intId 3)) (universal_id (.strId "a")) :=
  ⟨(scroll_matches_spec E₀ crec none 1 none (.boolSel true) (.boolSel false)).1,
    (scroll_matches_spec E₀ (initCollection cfg1) none 10 none (.boolSel true)
      (.boolSel false)).2.1 rfl,
    (scroll_matches_spec E₀ crec none 1 none (.boolSel true) (.boolSel false)).2.2.2.2.2.2.1 3
      "a" (by decide)⟩

/-- C1 witness: the search/spec equality and the page-length bound
    evaluated on the concrete collection `crec`, whose search call
    returns the single point `2`. -/
theorem search_matches_spec_witness :
    search E₀ crec (.raw [9]) none 1 0 (.boolSel true) (.boolSel false) none =
      searchSpec E₀ crec (.raw [9]) none 1 0 (.boolSel true) (.boolSel false) none ∧
    ([(⟨.intId 2, 2, 0, some [], none⟩ : ScoredPoint)]).length ≤ 1 :=
  ⟨(search_matches_spec E₀ crec (.raw [9]) none 1 0 (.boolSel true) (.boolSel false) none
      (by decide)).1,
    (search_matches_spec E₀ crec (.raw [9]) none 1 0 (.boolSel true) (.boolSel false) none
      (by decide)).2.1 [⟨.intId 2, 2, 0, some [], none⟩] (by decide)⟩

end Qd
